import Mathlib

/-!
Verification of the Bloom-filter transaction-tagging core of
`crypto-mpc-wallet-bloom` (C++), shallowly embedded in Lean 4.

The embedding follows `src/crypto-tss-rsa/BloomFilter.h`,
`src/crypto-tss-rsa/BloomFilter.cpp` and `examples/example.cpp`:

* byte strings (`std::string`) are `List Nat` (each element a byte value);
* the filter (`std::bitset<M>`) is a `List Bool` of length `M`, where list
  position `j` holds bitset bit `j` (so `to_string`, which prints bit
  `M-1` first, is a reversed map);
* the C library hash `std::hash<std::string>` is implementation-defined,
  so it is an explicit parameter `hashFn : String → Nat` of the
  operations that use it;
* `SHA256` (OpenSSL) is implemented concretely below, following
  FIPS 180-4, so that extraction/verification results are computable;
* C++ exceptions (`std::out_of_range` from `substr`, `std::invalid_argument`
  from the `bitset` string constructor, and the `std::runtime_error`
  thrown on digest mismatch) become an `Except CppError` result.
-/

set_option maxRecDepth 10000

/-- Size of the bloom filter (`const int M = 48` in `BloomFilter.h`). -/
def M : Nat := 48

/-- Number of hash functions (`const int K = 17` in `BloomFilter.h`). -/
def K : Nat := 17

/-- `SHA256_DIGEST_LENGTH` (OpenSSL): 32 bytes. -/
def SHA256_DIGEST_LENGTH : Nat := 32

/-- The `Transaction` struct of `BloomFilter.h`: a `std::bitset<M>`
bloom filter and an opaque `std::string data` payload (as bytes). -/
structure Transaction where
  bloom_filter : List Bool
  data : List Nat
deriving DecidableEq, Repr

/-- The C++ exceptions the embedded operations can surface. -/
inductive CppError where
  /-- `std::out_of_range`, thrown by `std::string::substr` when the start
  position exceeds the string size (which, via `size_t` wraparound, is what
  happens whenever the payload is too short). -/
  | outOfRange
  /-- `std::invalid_argument`, thrown by the `std::bitset` constructor on a
  character other than `'0'`/`'1'`. -/
  | invalidArgument
  /-- the `std::runtime_error("Invalid bloom filter hash in transaction data")`
  thrown on digest mismatch. -/
  | integrity
deriving DecidableEq, Repr

/-- `std::bitset<M>::set(index)`: sets bit `index`, throwing
`std::out_of_range` when `index` is not a valid bit position (`index ≥ M`). -/
def bitsetSet (bits : List Bool) (index : Nat) : Except CppError (List Bool) :=
  if index < M then .ok (bits.set index true) else .error .outOfRange

/-- `std::bitset<M>::to_string()`: the canonical textual form, one byte
`'1'` (49) or `'0'` (48) per bit, most significant bit (bit `M-1`) first. -/
def bitsetToString (bits : List Bool) : List Nat :=
  bits.reverse.map (fun b => if b then 49 else 48)

/-- The `std::bitset<M>(str)` constructor (pos = 0, n = npos): examines all
characters of `str`, throwing `std::invalid_argument` if any is not `'0'` or
`'1'`; otherwise bit `i` (for `i < min M str.length`) is set from character
`min M str.length - 1 - i`, i.e. the first `min M str.length` characters map
to the low bits, last character lowest; remaining high bits are zero. -/
def bitsetOfString (s : List Nat) : Except CppError (List Bool) :=
  if s.all (fun c => c == 48 || c == 49) then
    .ok (((s.take M).map (fun c => c == 49)).reverse ++
          List.replicate (M - s.length) false)
  else .error .invalidArgument

/-- The index computed in round `i` of `update_bloom_filter`:
`std::hash<std::string>()(std::to_string(i) + json_str) % M`. -/
def hashIndex (hashFn : String → Nat) (json_str : String) (i : Nat) : Nat :=
  hashFn (toString i ++ json_str) % M

/-- The first loop of `update_bloom_filter` (`BloomFilter.cpp` lines 10-13):
`for (i = 0; i < K; i++) hash_indices[i] = hash(to_string(i) + json_str) % M`,
overwriting the slots of the process-global `hash_indices` buffer `buf`. -/
def computeIndices (hashFn : String → Nat) (json_str : String)
    (buf : List Nat) : List Nat :=
  (List.range K).foldl (fun b i => b.set i (hashIndex hashFn json_str i)) buf

/-- The second loop of `update_bloom_filter` (`BloomFilter.cpp` lines 15-18):
`for (int index : hash_indices) transaction.bloom_filter.set(index)`. -/
def setBits (bits : List Bool) (idxs : List Nat) : Except CppError (List Bool) :=
  idxs.foldlM bitsetSet bits

/-- `safeheron::tss_rsa::update_bloom_filter` (`BloomFilter.cpp` lines 7-19),
with the process-global `hash_indices` buffer passed in and returned
explicitly. Returns the final buffer contents and the updated transaction. -/
def update_bloom_filter (hashFn : String → Nat) (buf : List Nat)
    (transaction : Transaction) (json_str : String) :
    Except CppError (List Nat × Transaction) := do
  let buf' := computeIndices hashFn json_str buf
  let bits ← setBits transaction.bloom_filter buf'
  pure (buf', { transaction with bloom_filter := bits })

/-- `safeheron::tss_rsa::extract_bloom_filter` (`BloomFilter.cpp` lines 21-24):
`transaction.data.substr(data.size() - bloom_filter.size(), data.size())`.
`bloom_filter.size()` is the constant `M`. In C++ the position argument is
computed in `size_t`, so for `data.size() < M` it wraps around to a value
larger than `data.size()` and `substr` throws `std::out_of_range`; otherwise
`substr` returns the trailing `M` characters (the count `data.size()` is
clamped to the `M` characters available). -/
def extract_bloom_filter (transaction : Transaction) : Except CppError (List Nat) :=
  if transaction.data.length < M then .error .outOfRange
  else .ok (transaction.data.drop (transaction.data.length - M))
/-- Right rotation of a 32-bit word (operand assumed `< 2^32`). -/
def rotr32 (x n : Nat) : Nat := ((x >>> n) ||| (x <<< (32 - n))) % 4294967296

def shaCh (e f g : Nat) : Nat := (e &&& f) ^^^ ((e ^^^ 4294967295) &&& g)

def shaMaj (a b c : Nat) : Nat := (a &&& b) ^^^ (a &&& c) ^^^ (b &&& c)

def shaBigSigma0 (x : Nat) : Nat := rotr32 x 2 ^^^ rotr32 x 13 ^^^ rotr32 x 22

def shaBigSigma1 (x : Nat) : Nat := rotr32 x 6 ^^^ rotr32 x 11 ^^^ rotr32 x 25

def shaSmallSigma0 (x : Nat) : Nat := rotr32 x 7 ^^^ rotr32 x 18 ^^^ (x >>> 3)

def shaSmallSigma1 (x : Nat) : Nat := rotr32 x 17 ^^^ rotr32 x 19 ^^^ (x >>> 10)

/-- SHA-256 round constants 0-7 (FIPS 180-4 section 4.2.2). -/
def shaKa : List Nat :=
  [0x428a2f98, 0x71374491, 0xb5c0fbcf, 0xe9b5dba5,
   0x3956c25b, 0x59f111f1, 0x923f82a4, 0xab1c5ed5]

/-- SHA-256 round constants 8-15. -/
def shaKb : List Nat :=
  [0xd807aa98, 0x12835b01, 0x243185be, 0x550c7dc3,
   0x72be5d74, 0x80deb1fe, 0x9bdc06a7, 0xc19bf174]

/-- SHA-256 round constants 16-23. -/
def shaKc : List Nat :=
  [0xe49b69c1, 0xefbe4786, 0x0fc19dc6, 0x240ca1cc,
   0x2de92c6f, 0x4a7484aa, 0x5cb0a9dc, 0x76f988da]

/-- SHA-256 round constants 24-31. -/
def shaKd : List Nat :=
  [0x983e5152, 0xa831c66d, 0xb00327c8, 0xbf597fc7,
   0xc6e00bf3, 0xd5a79147, 0x06ca6351, 0x14292967]

/-- SHA-256 round constants 32-39. -/
def shaKe : List Nat :=
  [0x27b70a85, 0x2e1b2138, 0x4d2c6dfc, 0x53380d13,
   0x650a7354, 0x766a0abb, 0x81c2c92e, 0x92722c85]

/-- SHA-256 round constants 40-47. -/
def shaKf : List Nat :=
  [0xa2bfe8a1, 0xa81a664b, 0xc24b8b70, 0xc76c51a3,
   0xd192e819, 0xd6990624, 0xf40e3585, 0x106aa070]

/-- SHA-256 round constants 48-55. -/
def shaKg : List Nat :=
  [0x19a4c116, 0x1e376c08, 0x2748774c, 0x34b0bcb5,
   0x391c0cb3, 0x4ed8aa4a, 0x5b9cca4f, 0x682e6ff3]

/-- SHA-256 round constants 56-63. -/
def shaKh : List Nat :=
  [0x748f82ee, 0x78a5636f, 0x84c87814, 0x8cc70208,
   0x90befffa, 0xa4506ceb, 0xbef9a3f7, 0xc67178f2]

/-- The 64 SHA-256 round constants. -/
def shaK : List Nat :=
  shaKa ++ shaKb ++ shaKc ++ shaKd ++ shaKe ++ shaKf ++ shaKg ++ shaKh

def shaInit : List Nat :=
  [0x6a09e667, 0xbb67ae85, 0x3c6ef372, 0xa54ff53a,
   0x510e527f, 0x9b05688c, 0x1f83d9ab, 0x5be0cd19]

/-- Big-endian 32-bit words from a byte list (4 bytes per word). -/
def bytesToWords : List Nat → List Nat
  | b0 :: b1 :: b2 :: b3 :: rest =>
      (((b0 * 256 + b1) * 256 + b2) * 256 + b3) :: bytesToWords rest
  | _ => []

/-- Big-endian bytes of a 32-bit word. -/
def wordToBytes (w : Nat) : List Nat :=
  [w / 16777216 % 256, w / 65536 % 256, w / 256 % 256, w % 256]

/-- Big-endian 8-byte encoding of the bit length. -/
def lenToBytes8 (l : Nat) : List Nat :=
  [l / 2 ^ 56 % 256, l / 2 ^ 48 % 256, l / 2 ^ 40 % 256, l / 2 ^ 32 % 256,
   l / 2 ^ 24 % 256, l / 2 ^ 16 % 256, l / 2 ^ 8 % 256, l % 256]

/-- SHA-256 message padding: append `0x80`, zero bytes up to 56 mod 64,
then the 64-bit big-endian bit length. -/
def shaPad (msg : List Nat) : List Nat :=
  msg ++ 128 :: List.replicate ((119 - msg.length % 64) % 64) 0 ++
    lenToBytes8 (msg.length * 8)

/-- Extend the 16 message-schedule words to 64. -/
def shaExtend : Nat → List Nat → List Nat
  | 0, w => w
  | n + 1, w =>
      let t := w.length
      let x := (shaSmallSigma1 (w.getD (t - 2) 0) + w.getD (t - 7) 0 +
                shaSmallSigma0 (w.getD (t - 15) 0) + w.getD (t - 16) 0) % 4294967296
      shaExtend n (w ++ [x])

/-- One round of the SHA-256 compression function. -/
def shaRound (state : List Nat) (kw : Nat × Nat) : List Nat :=
  match state with
  | [a, b, c, d, e, f, g, h] =>
      let t1 := (h + shaBigSigma1 e + shaCh e f g + kw.1 + kw.2) % 4294967296
      let t2 := (shaBigSigma0 a + shaMaj a b c) % 4294967296
      [(t1 + t2) % 4294967296, a, b, c, (d + t1) % 4294967296, e, f, g]
  | s => s

/-- Process one 64-byte block, updating the running hash state. -/
def shaBlock (state : List Nat) (block : List Nat) : List Nat :=
  let w := shaExtend 48 (bytesToWords block)
  let s := (shaK.zip w).foldl shaRound state
  (state.zip s).map (fun p => (p.1 + p.2) % 4294967296)

/-- Split into 64-byte chunks, structurally recursive on a fuel bound (one
unit of fuel per chunk; `l.length` units always suffice since every
non-empty step consumes at least one element). -/
def chunks64Aux : Nat → List Nat → List (List Nat)
  | _, [] => []
  | 0, _ => []
  | fuel + 1, l => l.take 64 :: chunks64Aux fuel (l.drop 64)

/-- Split into 64-byte chunks. -/
def chunks64 (l : List Nat) : List (List Nat) :=
  chunks64Aux l.length l

/-- SHA-256 of a byte list (FIPS 180-4), as OpenSSL's `SHA256` computes it. -/
def sha256 (msg : List Nat) : List Nat :=
  (((chunks64 (shaPad msg)).foldl shaBlock shaInit).map wordToBytes).flatten

/-- The `hash` function of `examples/example.cpp` (lines 35-47): the SHA-256
digest of the bloom filter's `to_string()` form, as a raw 32-byte string. -/
def hashBloom (bloom_filter : List Bool) : List Nat :=
  sha256 (bitsetToString bloom_filter)

/-- `extract_bloom_filter_from_transaction` of `examples/example.cpp`
(lines 50-81), on the raw bytes of `transaction_data`:

1. `bloom_hash = transaction_data.substr(size - SHA256_DIGEST_LENGTH)` —
   the trailing 32 bytes; when `size < 32` the `size_t` position wraps
   around and `substr` throws `std::out_of_range`;
2. `computed_hash_str = SHA256(bloom_hash)`;
3. `bloom_str = transaction_data.substr(size - SHA256_DIGEST_LENGTH - M/8,
   M/8)` — the `M / 8 = 6` bytes before the digest; when `size < 38` the
   position wraps and `substr` throws `std::out_of_range`;
4. `bloom_filter = std::bitset<M>(bloom_str)` — may throw
   `std::invalid_argument`;
5. return the filter when `computed_hash_str == hash(bloom_filter)`, else
   throw the runtime error (modelled as `.integrity`).

In C++ the (pure, total) SHA-256 of step 2 is computed between the two
`substr` calls; the embedding performs both length checks first, which is
observationally identical. -/
def extract_bloom_filter_from_transaction (transaction_data : List Nat) :
    Except CppError (List Bool) :=
  if transaction_data.length < SHA256_DIGEST_LENGTH then .error .outOfRange
  else if transaction_data.length < SHA256_DIGEST_LENGTH + M / 8 then
    .error .outOfRange
  else
    match bitsetOfString ((transaction_data.drop
        (transaction_data.length - SHA256_DIGEST_LENGTH - M / 8)).take
        (M / 8)) with
    | .error e => .error e
    | .ok bloom_filter =>
        if sha256 (transaction_data.drop
              (transaction_data.length - SHA256_DIGEST_LENGTH)) =
            hashBloom bloom_filter then
          .ok bloom_filter
        else .error .integrity

/-- The payload-tagging step of `main` in `examples/example.cpp`
(lines 135-137): `bloom_hash = hash(bloom_filter)` is computed (and then
never used), and `transaction.data` is set to the prefix string followed by
`bloom_filter.to_string()` — no digest is appended. -/
def mainTag (bloom_filter : List Bool) (pre : List Nat) : List Nat :=
  pre ++ bitsetToString bloom_filter

/-- The pure effect of the second `update_bloom_filter` loop once every
`set` is known to be in bounds: fold the bit-sets over the index list. -/
def applyIndices (idxs : List Nat) (bits : List Bool) : List Bool :=
  idxs.foldl (fun b i => b.set i true) bits

/-- Written from the spec's words, for comparison with the code in C1:
"independently computing those K indices and setting exactly those
(possibly fewer than K distinct) positions": after the update, position `j`
holds `true` exactly when it already did, or `j` equals one of the indices
`hash(decimal(i) ++ s) mod M` for `i` in `0..K`. -/
def spec_update (hashFn : String → Nat) (f : List Bool) (s : String) :
    List Bool :=
  (List.range f.length).map (fun j =>
    f.getD j false || (List.range K).any (fun i => hashIndex hashFn s i == j))

instance {ε α : Type} [DecidableEq ε] [DecidableEq α] :
    DecidableEq (Except ε α) := fun a b =>
  match a, b with
  | .error e1, .error e2 =>
      if h : e1 = e2 then .isTrue (by rw [h])
      else .isFalse (fun hc => h (Except.error.inj hc))
  | .error _, .ok _ => .isFalse (fun hc => Except.noConfusion hc)
  | .ok _, .error _ => .isFalse (fun hc => Except.noConfusion hc)
  | .ok a1, .ok a2 =>
      if h : a1 = a2 then .isTrue (by rw [h])
      else .isFalse (fun hc => h (Except.ok.inj hc))

/-- The all-zero filter a fresh `Transaction` starts from
(`std::bitset<M>` zero-initializes). -/
def zeroFilter : List Bool := List.replicate M false

/-- The canonical rendering of the all-zero filter: 48 `'0'` bytes. -/
def zeroRender : List Nat := bitsetToString zeroFilter

/-- The payload laid out exactly as the spec's authenticated embedding
demands for the all-zero filter: the `M`-character rendered filter followed
by `SHA256(SHA256(filterStr))`. -/
def specAuthPayload : List Nat := zeroRender ++ sha256 (sha256 zeroRender)

/-- The `K` indices derived by the first `update_bloom_filter` loop for a
given identity string. -/
def derivedIndices (hashFn : String → Nat) (json_str : String) : List Nat :=
  (List.range K).map (hashIndex hashFn json_str)

/-- The transaction as `update_bloom_filter` leaves it: the freshly derived
index bits folded into the filter; the payload untouched. -/
def updatedTransaction (hashFn : String → Nat) (t : Transaction)
    (json_str : String) : Transaction :=
  { t with bloom_filter :=
      applyIndices (derivedIndices hashFn json_str) t.bloom_filter }

/-- The embedded SHA-256 agrees with the FIPS 180-4 test vector for the
message `"abc"` (bytes listed in decimal, split in two halves). -/
theorem sha256_fips_vector :
    sha256 [97, 98, 99] =
      [186, 120, 22, 191, 143, 1, 207, 234,
       65, 65, 64, 222, 93, 174, 34, 35] ++
      [176, 3, 97, 163, 150, 23, 122, 156,
       180, 16, 255, 97, 242, 0, 21, 173] := by decide

/-- Writing slots `0, …, n-1` of a list of length at least `n` replaces
exactly its first `n` entries. -/
theorem foldl_set_range_eq {α : Type} (g : Nat → α) :
    ∀ (n : Nat) (l : List α), n ≤ l.length →
      (List.range n).foldl (fun b i => b.set i (g i)) l =
        (List.range n).map g ++ l.drop n := by
  intro n
  induction n with
  | zero => intro l _; simp
  | succ n ih =>
      intro l hn
      have hnl : n < l.length := by omega
      rw [List.range_succ, List.foldl_append, ih l (by omega)]
      simp only [List.foldl_cons, List.foldl_nil, List.map_append,
        List.map_cons, List.map_nil, List.set_append]
      have hlen : ((List.range n).map g).length = n := by simp
      rw [if_neg (by omega), hlen, Nat.sub_self,
        List.drop_eq_getElem_cons hnl, List.set_cons_zero, List.append_assoc,
        List.singleton_append]

/-- The first loop of `update_bloom_filter`: with the global buffer of its
actual length `K`, it leaves the buffer holding exactly the `K` freshly
derived indices of the identity just processed. -/
theorem computeIndices_eq (hashFn : String → Nat) (json_str : String)
    (buf : List Nat) (hbuf : buf.length = K) :
    computeIndices hashFn json_str buf =
      (List.range K).map (hashIndex hashFn json_str) := by
  unfold computeIndices
  rw [foldl_set_range_eq _ K buf (by omega), List.drop_eq_nil_of_le (by omega),
    List.append_nil]

/-- Every derived index is reduced `mod M`, hence in `[0, M)`. -/
theorem hashIndex_lt (hashFn : String → Nat) (json_str : String) (i : Nat) :
    hashIndex hashFn json_str i < M :=
  Nat.mod_lt _ (by decide)

/-- `setBits` on indices that are all in range never throws and is the pure
fold of `List.set`. -/
theorem setBits_ok : ∀ (idxs : List Nat) (bits : List Bool),
    (∀ i ∈ idxs, i < M) →
    setBits bits idxs = .ok (applyIndices idxs bits) := by
  intro idxs
  induction idxs with
  | nil => intro bits _; rfl
  | cons i rest ih =>
      intro bits hlt
      have hi : i < M := hlt i (by simp)
      simp only [setBits, applyIndices, List.foldlM_cons, bitsetSet, if_pos hi,
        List.foldl_cons] at *
      exact ih (bits.set i true) (fun x hx => hlt x (by simp [hx]))

/-- Conversely, whenever `setBits` succeeds its result is that pure fold. -/
theorem setBits_inv : ∀ (idxs : List Nat) (bits out : List Bool),
    setBits bits idxs = .ok out → out = applyIndices idxs bits := by
  intro idxs
  induction idxs with
  | nil => intro bits out h; exact (Except.ok.inj h).symm
  | cons i rest ih =>
      intro bits out h
      simp only [setBits, List.foldlM_cons, bitsetSet] at h
      by_cases hi : i < M
      · rw [if_pos hi] at h
        simp only [applyIndices, List.foldl_cons]
        exact ih (bits.set i true) out h
      · rw [if_neg hi] at h
        exact Except.noConfusion h

/-- Folding bit-sets never changes the filter's length. -/
theorem applyIndices_length : ∀ (idxs : List Nat) (f : List Bool),
    (applyIndices idxs f).length = f.length := by
  intro idxs
  induction idxs with
  | nil => intro f; rfl
  | cons i rest ih =>
      intro f
      have hstep : applyIndices (i :: rest) f = applyIndices rest (f.set i true) :=
        rfl
      rw [hstep, ih, List.length_set]

/-- Bit `j` after folding bit-sets: its old value, OR'd with whether `j`
occurs among the indices. -/
theorem applyIndices_getD : ∀ (idxs : List Nat) (f : List Bool) (j : Nat),
    j < f.length →
    (applyIndices idxs f).getD j false =
      (f.getD j false || idxs.any (fun i => i == j)) := by
  intro idxs
  induction idxs with
  | nil => intro f j _; simp [applyIndices]
  | cons i rest ih =>
      intro f j hj
      simp only [applyIndices, List.foldl_cons, List.any_cons]
      rw [show (List.foldl (fun b i => b.set i true) (f.set i true) rest)
          = applyIndices rest (f.set i true) from rfl,
        ih (f.set i true) j (by simp [hj])]
      simp only [List.getD_eq_getElem?_getD, List.getElem?_set]
      by_cases hij : i = j
      · subst hij
        rw [if_pos rfl, if_pos hj]
        simp
      · rw [if_neg hij]
        have hb : (i == j) = false := by simp [hij]
        rw [hb]
        simp [Bool.or_assoc]

/-- The characterization of a successful `update_bloom_filter` run: with the
global buffer at its declared length `K`, the call returns the freshly
derived index list and the filter with those bits folded in. -/
theorem update_bloom_filter_eq (hashFn : String → Nat) (buf : List Nat)
    (t : Transaction) (json_str : String) (hbuf : buf.length = K) :
    update_bloom_filter hashFn buf t json_str =
      .ok (derivedIndices hashFn json_str,
           updatedTransaction hashFn t json_str) := by
  have hlt : ∀ i ∈ derivedIndices hashFn json_str, i < M := by
    intro i hi
    rcases List.mem_map.mp hi with ⟨x, _, rfl⟩
    exact hashIndex_lt hashFn json_str x
  simp only [update_bloom_filter, updatedTransaction]
  rw [computeIndices_eq hashFn json_str buf hbuf]
  rw [show (List.range K).map (hashIndex hashFn json_str)
      = derivedIndices hashFn json_str from rfl, setBits_ok _ _ hlt]
  rfl

/-- C1: for every transaction state and every identity string `s`, a
successful `update_bloom_filter` run (on the global buffer of its actual
length `K`) sets to true exactly the bits at indices
`hash(decimal(i) ++ s) mod M` for `i` in `[0, K)` (`M = 48`, `K = 17`), in
addition to the bits already set: the resulting bit state equals the one
obtained by independently computing those `K` indices and setting exactly
those (possibly fewer than `K` distinct) positions. -/
theorem update_bloom_filter_sets_exactly_derived_bits
    (hashFn : String → Nat) (buf : List Nat) (t : Transaction) (s : String)
    (buf' : List Nat) (t' : Transaction) (hbuf : buf.length = K)
    (h : update_bloom_filter hashFn buf t s = .ok (buf', t')) :
    t'.bloom_filter = spec_update hashFn t.bloom_filter s := by
  rw [update_bloom_filter_eq hashFn buf t s hbuf] at h
  have hp := Except.ok.inj h
  injection hp with hp1 hp2
  subst hp2
  simp only [updatedTransaction]
  apply List.ext_getElem
  · simp [applyIndices_length, spec_update]
  · intro j hj1 hj2
    have hjt : j < t.bloom_filter.length := by
      rwa [applyIndices_length] at hj1
    rw [← List.getD_eq_getElem _ false hj1, ← List.getD_eq_getElem _ false hj2,
      applyIndices_getD _ _ j hjt]
    have hs : (spec_update hashFn t.bloom_filter s).getD j false =
        (t.bloom_filter.getD j false ||
          (List.range K).any (fun i => hashIndex hashFn s i == j)) := by
      rw [List.getD_eq_getElem _ false hj2]
      simp [spec_update]
    rw [hs, derivedIndices, List.any_map]
    rfl

/-- Witness for C1 at a concrete hash function, buffer, transaction and
identity string. -/
theorem update_bloom_filter_sets_exactly_derived_bits_witness :
    (Transaction.mk (((List.replicate 48 false).set 2 true).set 3 true)
        []).bloom_filter
      = spec_update (fun s => s.length) (List.replicate 48 false) "A" :=
  update_bloom_filter_sets_exactly_derived_bits (fun s => s.length)
    (List.replicate 17 0) ⟨List.replicate 48 false, []⟩ "A"
    (List.replicate 10 2 ++ List.replicate 7 3)
    ⟨((List.replicate 48 false).set 2 true).set 3 true, []⟩
    (by decide) (by decide)

/-- C6: filter bits are monotone. On any successful `update_bloom_filter`
run, every bit set beforehand is still set afterwards (bits only ever go
`0 → 1`), and the filter length stays fixed at `M`. -/
theorem update_bloom_filter_monotone
    (hashFn : String → Nat) (buf : List Nat) (t : Transaction) (s : String)
    (buf' : List Nat) (t' : Transaction) (hM : t.bloom_filter.length = M)
    (h : update_bloom_filter hashFn buf t s = .ok (buf', t')) :
    t'.bloom_filter.length = M ∧
    ∀ j, t.bloom_filter.getD j false = true →
      t'.bloom_filter.getD j false = true := by
  simp only [update_bloom_filter] at h
  cases hsb : setBits t.bloom_filter (computeIndices hashFn s buf) with
  | error e => rw [hsb] at h; exact Except.noConfusion h
  | ok bits =>
      rw [hsb] at h
      have hp := Except.ok.inj h
      injection hp with hp1 hp2
      subst hp2
      have hbits := setBits_inv _ _ _ hsb
      subst hbits
      constructor
      · rw [applyIndices_length, hM]
      · intro j hj
        by_cases hjl : j < t.bloom_filter.length
        · rw [applyIndices_getD _ _ j hjl, hj]
          rfl
        · have hnone : t.bloom_filter.getD j false = false := by
            rw [List.getD_eq_getElem?_getD, List.getElem?_eq_none (by omega)]
            rfl
          rw [hnone] at hj
          exact Bool.noConfusion hj

/-- Witness for C6 at a concrete hash function, buffer and transaction
whose bit 5 is already set. -/
theorem update_bloom_filter_monotone_witness :
    (Transaction.mk ((((List.replicate 48 false).set 5 true).set 2 true).set
        3 true) []).bloom_filter.length = M ∧
    (Transaction.mk ((((List.replicate 48 false).set 5 true).set 2 true).set
        3 true) []).bloom_filter.getD 5 false = true := by
  have h := update_bloom_filter_monotone (fun s => s.length)
    (List.replicate 17 0) ⟨(List.replicate 48 false).set 5 true, []⟩ "A"
    (List.replicate 10 2 ++ List.replicate 7 3)
    ⟨(((List.replicate 48 false).set 5 true).set 2 true).set 3 true, []⟩
    (by decide) (by decide)
  exact ⟨h.1, h.2 5 (by decide)⟩

/-- C9: `update_bloom_filter` and the renderer never fail. With the global
buffer at its actual length `K`, every derived index is taken `mod M` and
is therefore in `[0, M)`, every `set` is in bounds, and the update takes no
error branch; `to_string` is total on every filter state. -/
theorem update_bloom_filter_never_fails
    (hashFn : String → Nat) (buf : List Nat) (t : Transaction) (s : String)
    (hbuf : buf.length = K) :
    (computeIndices hashFn s buf).all (fun i => i < M) = true ∧
    update_bloom_filter hashFn buf t s =
      .ok (derivedIndices hashFn s, updatedTransaction hashFn t s) ∧
    (bitsetToString t.bloom_filter).length = t.bloom_filter.length := by
  refine ⟨?_, update_bloom_filter_eq hashFn buf t s hbuf, ?_⟩
  · rw [computeIndices_eq hashFn s buf hbuf, List.all_eq_true]
    intro x hx
    rcases List.mem_map.mp hx with ⟨i, _, rfl⟩
    simpa using hashIndex_lt hashFn s i
  · simp [bitsetToString]

/-- Witness for C9 at a concrete hash function, buffer, transaction and the
empty identity string. -/
theorem update_bloom_filter_never_fails_witness :
    (computeIndices (fun s => s.length) "" (List.replicate 17 0)).all
      (fun i => i < M) = true ∧
    update_bloom_filter (fun s => s.length) (List.replicate 17 0)
        ⟨List.replicate 48 false, [99]⟩ "" =
      .ok (derivedIndices (fun s => s.length) "",
           updatedTransaction (fun s => s.length)
             ⟨List.replicate 48 false, [99]⟩ "") ∧
    (bitsetToString (Transaction.mk (List.replicate 48 false)
        [99]).bloom_filter).length =
      (Transaction.mk (List.replicate 48 false) [99]).bloom_filter.length :=
  update_bloom_filter_never_fails (fun s => s.length) (List.replicate 17 0)
    ⟨List.replicate 48 false, [99]⟩ "" (by decide)

/-- C10: the filter state produced by `update_bloom_filter` does not depend
on the prior contents of the shared global `hash_indices` buffer: with any
two prior buffer contents (of the buffer's actual length `K`), the same
transaction and identity string produce identical results, because all `K`
slots are overwritten before any slot is read. -/
theorem update_bloom_filter_buffer_independent
    (hashFn : String → Nat) (s : String) (t : Transaction)
    (b1 b2 : List Nat) (h1 : b1.length = K) (h2 : b2.length = K) :
    update_bloom_filter hashFn b1 t s = update_bloom_filter hashFn b2 t s := by
  rw [update_bloom_filter_eq hashFn b1 t s h1,
    update_bloom_filter_eq hashFn b2 t s h2]

/-- Witness for C10 at two concrete, different prior buffer contents. -/
theorem update_bloom_filter_buffer_independent_witness :
    update_bloom_filter (fun s => s.length) (List.replicate 17 0)
        ⟨List.replicate 48 false, []⟩ "A" =
      update_bloom_filter (fun s => s.length) (List.range 17)
        ⟨List.replicate 48 false, []⟩ "A" :=
  update_bloom_filter_buffer_independent (fun s => s.length) "A"
    ⟨List.replicate 48 false, []⟩ (List.replicate 17 0) (List.range 17)
    (by decide) (by decide)

/-- C4: `extract_bloom_filter` returns exactly the trailing `M` characters
of the transaction payload (a length-`M` suffix) whenever the payload has
at least `M` characters, and fails (the wrapped-around `substr` position
throws, surfaced as the truncation error) for every shorter payload. -/
theorem extract_bloom_filter_trailing (t : Transaction) :
    (M ≤ t.data.length →
      extract_bloom_filter t = .ok (t.data.drop (t.data.length - M)) ∧
      (t.data.drop (t.data.length - M)).length = M ∧
      t.data.take (t.data.length - M) ++ t.data.drop (t.data.length - M)
        = t.data) ∧
    (t.data.length < M → extract_bloom_filter t = .error .outOfRange) := by
  constructor
  · intro hM
    refine ⟨?_, ?_, List.take_append_drop _ _⟩
    · unfold extract_bloom_filter
      rw [if_neg (by omega)]
    · rw [List.length_drop]
      omega
  · intro hlt
    unfold extract_bloom_filter
    rw [if_pos hlt]

/-- Witness for C4 at a 50-byte payload and at a 3-byte payload. -/
theorem extract_bloom_filter_trailing_witness :
    (extract_bloom_filter ⟨zeroFilter, List.range 50⟩ =
        .ok ((List.range 50).drop ((List.range 50).length - M)) ∧
      ((List.range 50).drop ((List.range 50).length - M)).length = M ∧
      (List.range 50).take ((List.range 50).length - M) ++
          (List.range 50).drop ((List.range 50).length - M) = List.range 50) ∧
    extract_bloom_filter ⟨zeroFilter, [1, 2, 3]⟩ = .error .outOfRange :=
  ⟨(extract_bloom_filter_trailing ⟨zeroFilter, List.range 50⟩).1 (by decide),
   (extract_bloom_filter_trailing ⟨zeroFilter, [1, 2, 3]⟩).2 (by decide)⟩

/-- C5: round trip. Rendering any width-`M` filter state to its canonical
`'0'`/`'1'` string and parsing that string back with the `bitset`
constructor yields the identical bit state. -/
theorem parse_render_roundtrip (f : List Bool) (hf : f.length = M) :
    bitsetOfString (bitsetToString f) = .ok f := by
  unfold bitsetOfString bitsetToString
  have hall : (f.reverse.map (fun b => if b then (49 : Nat) else 48)).all
      (fun c => c == 48 || c == 49) = true := by
    rw [List.all_eq_true]
    intro c hc
    rcases List.mem_map.mp hc with ⟨b, _, rfl⟩
    cases b <;> rfl
  rw [if_pos hall]
  have hlen : (f.reverse.map (fun b => if b then (49 : Nat) else 48)).length
      = M := by simp [hf]
  rw [List.take_of_length_le (le_of_eq hlen), hlen, Nat.sub_self,
    List.replicate_zero, List.append_nil, List.map_map]
  have hcomp : ((fun c => c == 49) ∘ fun b : Bool =>
      if b then (49 : Nat) else 48) = id := by
    funext b
    cases b <;> rfl
  rw [hcomp, List.map_id, List.reverse_reverse]

/-- Witness for C5 at a concrete mixed-bit filter. -/
theorem parse_render_roundtrip_witness :
    bitsetOfString (bitsetToString
        (List.replicate 24 true ++ List.replicate 24 false)) =
      .ok (List.replicate 24 true ++ List.replicate 24 false) :=
  parse_render_roundtrip (List.replicate 24 true ++ List.replicate 24 false)
    (by decide)

/-- C8 counterexample: the `bitset` string constructor accepts a
single-character `"0"` input — whose length differs from `M` — and returns
the all-zero filter instead of failing with a format error. -/
theorem bitsetOfString_accepts_wrong_length :
    bitsetOfString [48] = .ok (List.replicate 48 false) ∧
    ([48] : List Nat).length ≠ M := by
  constructor
  · decide
  · decide

/-- C8 amended: parsing fails with the format error exactly when the input
contains a byte other than `'0'`/`'1'`; every `'0'`/`'1'` string of *any*
length parses successfully to a length-`M` filter (shorter inputs populate
only the low-order bits, longer inputs use their first `M` characters) — in
particular every `M`-character `'0'`/`'1'` string is accepted. -/
theorem bitsetOfString_spec (s : List Nat) :
    (bitsetOfString s = .error .invalidArgument ↔
      ¬ ∀ c ∈ s, c = 48 ∨ c = 49) ∧
    ((∀ c ∈ s, c = 48 ∨ c = 49) →
      bitsetOfString s =
        .ok (((s.take M).map (fun c => c == 49)).reverse ++
          List.replicate (M - s.length) false) ∧
      (((s.take M).map (fun c => c == 49)).reverse ++
          List.replicate (M - s.length) false).length = M) := by
  have hcond : s.all (fun c => c == 48 || c == 49) = true ↔
      ∀ c ∈ s, c = 48 ∨ c = 49 := by
    simp [List.all_eq_true]
  refine ⟨⟨?_, ?_⟩, ?_⟩
  · intro h hall
    unfold bitsetOfString at h
    rw [if_pos (hcond.mpr hall)] at h
    exact Except.noConfusion h
  · intro hnall
    unfold bitsetOfString
    rw [if_neg (fun hc => hnall (hcond.mp hc))]
  · intro hall
    constructor
    · unfold bitsetOfString
      rw [if_pos (hcond.mpr hall)]
    · simp only [List.length_append, List.length_reverse, List.length_map,
        List.length_take, List.length_replicate]
      omega

/-- Witness for the amended C8 at a non-`'0'`/`'1'` input and at a valid
two-character input. -/
theorem bitsetOfString_spec_witness :
    bitsetOfString [50] = .error .invalidArgument ∧
    bitsetOfString [49, 48] =
      .ok (((([49, 48] : List Nat).take M).map (fun c => c == 49)).reverse ++
        List.replicate (M - ([49, 48] : List Nat).length) false) ∧
    (((([49, 48] : List Nat).take M).map (fun c => c == 49)).reverse ++
        List.replicate (M - ([49, 48] : List Nat).length) false).length = M :=
  ⟨(bitsetOfString_spec [50]).1.mpr (by decide),
   ((bitsetOfString_spec [49, 48]).2 (by decide)).1,
   ((bitsetOfString_spec [49, 48]).2 (by decide)).2⟩

/-- The `bitset` string constructor only ever throws the
`invalid_argument` error. -/
theorem bitsetOfString_error_eq (s : List Nat) (e : CppError)
    (h : bitsetOfString s = .error e) : e = .invalidArgument := by
  unfold bitsetOfString at h
  by_cases hc : s.all (fun c => c == 48 || c == 49) = true
  · rw [if_pos hc] at h
    exact Except.noConfusion h
  · rw [if_neg hc] at h
    exact (Except.error.inj h).symm

/-- C7 counterexample: a 38-byte payload is shorter than `M + 32 = 80`
bytes, yet `extract_bloom_filter_from_transaction` does not fail with the
truncation error there — it slices the `M/8 = 6` bytes before the trailing
32 and fails with the integrity error instead. -/
theorem extract_not_truncation_below_80 :
    extract_bloom_filter_from_transaction
        (List.replicate 6 48 ++ List.replicate 32 0) = .error .integrity ∧
    (List.replicate 6 48 ++ List.replicate 32 0 : List Nat).length <
      M + SHA256_DIGEST_LENGTH := by
  constructor
  · decide
  · decide

/-- C7 amended: authenticated extraction fails with the truncation
(out-of-range) error exactly for payloads shorter than
`SHA256_DIGEST_LENGTH + M/8 = 38` bytes — not `M + 32 = 80` as claimed.
On payloads of length at least 38 it never fails with truncation (the
embedded function is total: no panic, no out-of-bounds access), though it
may fail with the format or integrity errors. -/
theorem extract_from_transaction_truncation (p : List Nat) :
    (p.length < SHA256_DIGEST_LENGTH + M / 8 →
      extract_bloom_filter_from_transaction p = .error .outOfRange) ∧
    (SHA256_DIGEST_LENGTH + M / 8 ≤ p.length →
      extract_bloom_filter_from_transaction p ≠ .error .outOfRange) := by
  unfold extract_bloom_filter_from_transaction
  constructor
  · intro hlt
    by_cases h32 : p.length < SHA256_DIGEST_LENGTH
    · rw [if_pos h32]
    · rw [if_neg h32, if_pos hlt]
  · intro hge hcontra
    rw [if_neg (by omega), if_neg (by omega)] at hcontra
    cases hbs : bitsetOfString ((p.drop
        (p.length - SHA256_DIGEST_LENGTH - M / 8)).take (M / 8)) with
    | error e =>
        rw [hbs] at hcontra
        have he := bitsetOfString_error_eq _ _ hbs
        have heq := Except.error.inj hcontra
        rw [he] at heq
        exact CppError.noConfusion heq
    | ok bf =>
        rw [hbs] at hcontra
        have hcontra2 : (if sha256 (p.drop (p.length - SHA256_DIGEST_LENGTH))
              = hashBloom bf then Except.ok bf
            else (Except.error CppError.integrity :
              Except CppError (List Bool))) =
            Except.error CppError.outOfRange := hcontra
        by_cases hsha : sha256 (p.drop (p.length - SHA256_DIGEST_LENGTH)) =
            hashBloom bf
        · rw [if_pos hsha] at hcontra2
          exact Except.noConfusion hcontra2
        · rw [if_neg hsha] at hcontra2
          exact CppError.noConfusion (Except.error.inj hcontra2)

/-- Witness for the amended C7 at a 10-byte and at a 38-byte payload. -/
theorem extract_from_transaction_truncation_witness :
    extract_bloom_filter_from_transaction (List.replicate 10 0) =
      .error .outOfRange ∧
    extract_bloom_filter_from_transaction
        (List.replicate 6 48 ++ List.replicate 32 0) ≠ .error .outOfRange :=
  ⟨(extract_from_transaction_truncation (List.replicate 10 0)).1 (by decide),
   (extract_from_transaction_truncation
      (List.replicate 6 48 ++ List.replicate 32 0)).2 (by decide)⟩

/-- C2 fails on the code: evaluated at an 80-byte payload laid out exactly
as the claim prescribes — `filterStr` = the `M = 48` rendered characters of
the all-zero filter, followed by `storedDigest = SHA256(SHA256(filterStr))`
— the claim demands success (the stored digest equals the recomputed
double hash), yet `extract_bloom_filter_from_transaction` throws the
integrity error: it reads only the `M/8 = 6` characters before the digest
as the filter and compares `SHA256(storedDigest)` against
`SHA256(render(parsed filter))`, which differ. -/
theorem extract_rejects_spec_authenticated_payload :
    extract_bloom_filter_from_transaction specAuthPayload =
      .error .integrity ∧
    specAuthPayload.length = M + SHA256_DIGEST_LENGTH := by
  constructor
  · decide
  · decide

/-- C3 fails on the code: `main` computes `bloom_hash = hash(bloom_filter)`
but never appends it — its payload is the prefix plus the rendered filter
only, not the claimed `prefix ++ render(f) ++ SHA256(SHA256(render(f)))`;
and `extract_bloom_filter_from_transaction` applied to that claimed output
(prefix `"X"` = byte 88, all-zero filter) throws the integrity error
instead of returning the filter. -/
theorem mainTag_not_authenticated_roundtrip :
    mainTag zeroFilter [88] ≠ [88] ++ specAuthPayload ∧
    extract_bloom_filter_from_transaction ([88] ++ specAuthPayload) =
      .error .integrity := by
  constructor
  · decide
  · decide
